import Mathlib

/-!
Verification of the `memfs` in-memory filesystem (ncruces/go-fs).

The definitions below are a shallow embedding of `src/memfs/memfs.go`:
paths are lists of characters, byte contents are lists of naturals,
Go maps become association lists, and the `gzip` library (an external
collaborator) is abstracted as a `Codec` record.  Stateful methods
become explicit state-passing functions; `while` loops become fueled
recursions with enough fuel supplied at each call site.
-/

set_option maxRecDepth 100000

namespace Memfs

/-- A slash-separated path, as a list of characters (Go `string`). -/
abbrev Name := List Char

/-- File contents, as a list of byte values (Go `[]byte` / `string` data). -/
abbrev Bytes := List Nat

/-- Error values returned by the Go code (`fs.ErrInvalid`, `fs.ErrExist`,
`fs.ErrClosed`, `io.EOF`, and errors surfaced by the gzip collaborator). -/
inductive Err where
  | invalid | exist | notExist | closed | eof | gzip
  deriving DecidableEq, Repr

/-- Association-list lookup, standing in for Go map indexing `m[k]`. -/
def lookupA {β : Type} (k : Name) : List (Name × β) → Option β
  | [] => none
  | (k', v) :: rest => if k' = k then some v else lookupA k rest

/-- Association-list overwrite, standing in for Go map assignment `m[k] = v`. -/
def insertA {β : Type} (k : Name) (v : β) : List (Name × β) → List (Name × β)
  | [] => [(k, v)]
  | (k', v') :: rest => if k' = k then (k, v) :: rest else (k', v') :: insertA k v rest

/-- `path.Split`: splits a path immediately after its final slash, returning
(directory-with-trailing-slash, file).  Mirrors `strings.LastIndex` + slicing. -/
def splitP : Name → Name × Name
  | [] => ([], [])
  | c :: rest =>
    let (d, f) := splitP rest
    if d.isEmpty ∧ ¬(c = '/') then ([], c :: f) else (c :: d, f)

/-- One pass of the element loop of `fs.ValidPath`: each slash-separated
element must be nonempty and differ from "." and "..".  `fuel` bounds the
iteration count; every call supplies more fuel than elements. -/
def validPathLoop : Nat → Name → Bool
  | 0, _ => false
  | fuel + 1, name =>
    let elem := name.takeWhile (· ≠ '/')
    if elem = [] ∨ elem = ['.'] ∨ elem = ['.', '.'] then false
    else if elem.length = name.length then true
    else validPathLoop fuel (name.drop (elem.length + 1))

/-- `fs.ValidPath` from Go's `io/fs` (UTF-8 validity holds for `List Char`). -/
def validPath (name : Name) : Bool :=
  if name = ['.'] then true else validPathLoop (name.length + 1) name

/-- A stored object: base name, stored bytes (raw or gzip container),
declared (uncompressed) size, modification time, MIME type, checksum. -/
structure Obj where
  name : Name
  data : Bytes
  size : Nat
  time : Nat
  mime : Name
  hash : Nat
  deriving DecidableEq, Repr

/-- The in-memory `FileSystem`: object map and directory-listing map. -/
structure FS where
  objs : List (Name × Obj)
  dirs : List (Name × List Name)
  deriving DecidableEq, Repr

/-- `memfs.Create()`: empty store whose directory map holds only `"."`. -/
def initFS : FS := { objs := [], dirs := [(['.'], [])] }

/-- `hasFile` closure inside `put`: ordered mode checks only the final entry,
unordered mode scans the whole child list. -/
def hasFile (ordered : Bool) (d : List Name) (name : Name) : Bool :=
  if ordered then d.getLast? = some name else d.contains name

/-- `addFile` closure inside `put` (memfs.go): append `file` to the child
list of `dir` unless already present; returns the new map and whether an
entry was added. -/
def addFile (ordered : Bool) (dirs : List (Name × List Name)) (dir file : Name) :
    List (Name × List Name) × Bool :=
  let d := (lookupA dir dirs).getD []
  if hasFile ordered d file then (dirs, false)
  else (insertA dir (d ++ [file]) dirs, true)

/-- The ancestor-linking loop of `put` (memfs.go lines 260-271):
`for len(dir) > 1 { dir = dir[:len(dir)-1]; if addFile(dir, name) { name = dir;
dir, _ = path.Split(dir) } else { return } }; addFile(dir, name)`.
`fuel` bounds the iterations; `dir` loses at least one character per round,
so `dir.length + 1` fuel always completes the walk. -/
def putLoop (ordered : Bool) : Nat → List (Name × List Name) → Name → Name →
    List (Name × List Name)
  | 0, dirs, _, _ => dirs
  | fuel + 1, dirs, dir, name =>
    if 1 < dir.length then
      let dir' := dir.dropLast
      match addFile ordered dirs dir' name with
      | (dirs', true) => putLoop ordered fuel dirs' (splitP dir').1 dir'
      | (dirs', false) => dirs'
    else (addFile ordered dirs dir name).1

/-- `FileSystem.put` (memfs.go lines 234-272): install the object under its
full path, then link ancestors bottom-up. -/
def put (fs : FS) (name : Name) (obj : Obj) (ordered : Bool) : FS :=
  let (dir, file) := splitP name
  { objs := insertA name { obj with name := file } fs.objs
    dirs := putLoop ordered (dir.length + 1) fs.dirs dir name }

/-- The ancestor-linking loop of the revised `put` in `src/unnamed/part_001`
(lines 234-253): `addFile` reports "already present", the loop runs while
`len(dir) > 0`, and the walk finishes with `addFile(".", name)`. -/
def putLoopV2 (ordered : Bool) : Nat → List (Name × List Name) → Name → Name →
    List (Name × List Name)
  | 0, dirs, _, _ => dirs
  | fuel + 1, dirs, dir, name =>
    if 0 < dir.length then
      let dir' := dir.dropLast
      match addFile ordered dirs dir' name with
      | (_, false) => dirs
      | (dirs', true) => putLoopV2 ordered fuel dirs' (splitP dir').1 dir'
    else (addFile ordered dirs ['.'] name).1

/-- `FileSystem.put` as revised in `src/unnamed/part_001` (lines 217-254). -/
def putV2 (fs : FS) (name : Name) (obj : Obj) (ordered : Bool) : FS :=
  let (dir, file) := splitP name
  { objs := insertA name { obj with name := file } fs.objs
    dirs := putLoopV2 ordered (dir.length + 1) fs.dirs dir name }

/-- The gzip collaborator, abstracted: `compress level` models writing the
content through `gzip.NewWriterLevel` + `Close` (`none` = the copy or close
step failed), `decompress` models draining a `gzip.Reader` (`none` = the
reader could not be constructed).  The library itself is out of scope; its
round-trip property is assumed where a theorem needs it. -/
structure Codec where
  compress : Int → Bytes → Option Bytes
  decompress : Bytes → Option Bytes

/-- A codec inverts its own output: whatever `compress` produced,
`decompress` recovers the original content (gzip's contract). -/
def Codec.Inverts (C : Codec) : Prop :=
  ∀ level c z, C.compress level c = some z → C.decompress z = some c

/-- `gzip.NewWriterLevel` succeeds exactly for levels in
`[HuffmanOnly..BestCompression] = [-2..9]`. -/
def validLevel (level : Int) : Bool := -2 ≤ level ∧ level ≤ 9

/-- Little-endian 32-bit value of the first four bytes of a list. -/
def le32 (b : Bytes) : Nat :=
  (b.getD 0 0) + 2 ^ 8 * (b.getD 1 0) + 2 ^ 16 * (b.getD 2 0) + 2 ^ 24 * (b.getD 3 0)

/-- `getHash` (memfs.go lines 590-597): pull the CRC-32 out of a gzip
trailer when the container looks like gzip and its ISIZE field matches the
uncompressed size (`uint32(isize)` truncates to 32 bits). -/
def getHash (data : Bytes) (isize : Nat) : Nat :=
  if 10 + 8 < data.length ∧ data.getD 0 0 = 0x1f ∧ data.getD 1 0 = 0x8b then
    if le32 (data.drop (data.length - 4)) = isize % 2 ^ 32 then
      le32 (data.drop (data.length - 8))
    else 0
  else 0

/-- `FileSystem.Create` (memfs.go lines 120-155).  The content argument is
the byte sequence behind the caller's in-memory `io.ReadSeeker`, so
`getType` sniffing and `getSize` seeking never fail and the copy loop
gathers exactly `content`; `crc` abstracts the Castagnoli CRC-32.
Error paths return the store untouched. -/
def create (crc : Bytes → Nat) (fs : FS) (name : Name) (mimetype : Name)
    (modtime : Nat) (content : Bytes) : FS × Option Err :=
  if ¬ validPath name then (fs, some .invalid)
  else if (lookupA name fs.dirs).isSome then (fs, some .exist)
  else
    (put fs name
      { name := [], data := content, size := content.length,
        time := modtime, mime := mimetype, hash := crc content } false, none)

/-- The compression tail of `CreateCompressed` (memfs.go lines 194-213):
run the content through the gzip writer, keep the result only on at least
a 20% reduction (`4*n >= 5*buf.Len()`), otherwise rewind and store raw.
When the copy or close fails (`compress` = `none`), the Go code overwrites
`err` with the result of the (in-memory, always successful)
`content.Seek(0, io.SeekStart)` and falls through to raw `Create` — the
compression error is dropped. -/
def ccGate (C : Codec) (crc : Bytes → Nat) (fs : FS) (name : Name)
    (mimetype : Name) (modtime : Nat) (content : Bytes) (level : Int) :
    FS × Option Err :=
  match C.compress level content with
  | none => create crc fs name mimetype modtime content
  | some zdata =>
    if 5 * zdata.length ≤ 4 * content.length then
      (put fs name
        { name := [], data := zdata, size := content.length,
          time := modtime, mime := mimetype,
          hash := getHash zdata content.length } false, none)
    else create crc fs name mimetype modtime content

/-- `FileSystem.CreateCompressed` (memfs.go lines 157-214). -/
def createCompressed (C : Codec) (crc : Bytes → Nat) (fs : FS) (name : Name)
    (mimetype : Name) (modtime : Nat) (content : Bytes) (level : Int) :
    FS × Option Err :=
  if level = 0 then create crc fs name mimetype modtime content
  else if ¬ validPath name then (fs, some .invalid)
  else if (lookupA name fs.dirs).isSome then (fs, some .exist)
  else if content.length < 1024 then create crc fs name mimetype modtime content
  else if ¬ validLevel level then (fs, some .gzip)
  else ccGate C crc fs name mimetype modtime content level

/-- `FileSystem.CreateString` (memfs.go lines 224-232): trusted pre-built
object ingestion used by the code generator; no validation, ordered mode. -/
def createString (fs : FS) (name : Name) (mimetype : Name) (modtime : Nat)
    (hash : Nat) (size : Nat) (content : Bytes) : FS :=
  put fs name
    { name := [], data := content, size := size,
      time := modtime, mime := mimetype, hash := hash } true

/-- An open `file` handle (memfs.go lines 292-296).  Go encodes "closed" as
`pos = -1` and `Close` is the only writer of a negative position, so the
model splits that into a `closed` flag and a natural `pos`.  `reader` holds
the byte sequence the lazily-created stream has yet to deliver
(`nil` reader = `none`). -/
structure FileH where
  size : Nat
  data : Bytes
  pos : Nat
  closed : Bool
  reader : Option Bytes
  deriving DecidableEq, Repr

/-- The handle `FileSystem.Open` returns for an object (memfs.go line 97):
`&file{object: o}` — position 0, no stream yet. -/
def freshFile (o : Obj) : FileH :=
  { size := o.size, data := o.data, pos := 0, closed := false, reader := none }

/-- `FileSystem.Open` (memfs.go lines 95-103), restricted to object paths
(directory handles have no byte stream and are outside the read claims). -/
def openFile (fs : FS) (name : Name) : Option FileH :=
  (lookupA name fs.objs).map freshFile

/-- `file.Close` (memfs.go lines 298-304). -/
def fileClose (f : FileH) : FileH := { f with closed := true, reader := none }

/-- Delivery step shared by every branch of `file.Read`: the stream `rem`
hands over `min cap rem.length` bytes (`strings.Reader` semantics; a gzip
reader yields the same bytes over the whole read loop).  An exhausted
stream answers a nonempty read with `io.EOF`. -/
def deliver (rem : Bytes) (f : FileH) (cap : Nat) : Bytes × FileH × Option Err :=
  if rem.isEmpty ∧ cap ≠ 0 then ([], { f with reader := some rem }, some .eof)
  else
    (rem.take cap,
     { f with pos := f.pos + min cap rem.length, reader := some (rem.drop cap) },
     none)

/-- `file.Read` (memfs.go lines 306-332): closed check, end-of-data check,
lazy stream construction (raw slice `data[pos:]` when the stored length
equals the declared size, otherwise a gzip stream skipped forward `pos`
bytes via `io.CopyN`), then one delivery from the stream. -/
def fileRead (C : Codec) (f : FileH) (cap : Nat) : Bytes × FileH × Option Err :=
  if f.closed then ([], f, some .closed)
  else if f.size ≤ f.pos then ([], f, some .eof)
  else
    match f.reader with
    | some rem => deliver rem f cap
    | none =>
      if f.data.length = f.size then deliver (f.data.drop f.pos) f cap
      else
        match C.decompress f.data with
        | none => ([], f, some .gzip)
        | some dec =>
          if dec.length < f.pos then
            -- io.CopyN ran dry before skipping pos bytes: position advances
            -- to what was skipped and the EOF from the copy is returned.
            ([], { f with pos := dec.length, reader := some [] }, some .eof)
          else deliver (dec.drop f.pos) f cap

/-- The `switch whence` of `file.Seek`: the absolute target offset, or
`none` for an unrecognized whence (0 = start, 1 = current, 2 = end). -/
def seekTarget (f : FileH) (offset whence : Int) : Option Int :=
  if whence = 0 then some offset
  else if whence = 1 then some ((f.pos : Int) + offset)
  else if whence = 2 then some ((f.size : Int) + offset)
  else none

/-- The tail of `file.Seek` after the whence switch: on 64-bit platforms
the `int(npos)` round-trip is the identity, so only a negative target is
rejected; success sets the position and drops the decompression stream. -/
def seekCommit (f : FileH) (npos : Int) : Int × FileH × Option Err :=
  if npos < 0 then (0, f, some .invalid)
  else (npos, { f with pos := npos.toNat, reader := none }, none)

/-- `file.Seek` (memfs.go lines 334-356).  Error paths leave the handle
untouched. -/
def fileSeek (f : FileH) (offset : Int) (whence : Int) : Int × FileH × Option Err :=
  if f.closed then (0, f, some .closed)
  else
    match seekTarget f offset whence with
    | none => (0, f, some .invalid)
    | some npos => seekCommit f npos

/-- Repeated `Read` calls with buffer size `cap` until an error: the bytes
gathered, the final handle, and whether the loop ended at `io.EOF`
(clean end-of-data).  `fuel` bounds the number of calls. -/
def readLoop (C : Codec) (cap : Nat) : Nat → FileH → Bytes × FileH × Bool
  | 0, f => ([], f, false)
  | fuel + 1, f =>
    match fileRead C f cap with
    | (bs, f', none) =>
      let (rest, f'', flag) := readLoop C cap fuel f'
      (bs ++ rest, f'', flag)
    | (bs, f', some e) => (bs, f', e = .eof)

/-- The full byte sequence a fresh handle on `o` yields when read to
end-of-data (used to model the transparently-decompressed serving path). -/
def servedBody (C : Codec) (o : Obj) : Bytes :=
  (readLoop C (o.size + 1) (o.size + 2) (freshFile o)).1

/-- The parts of an `http.Request` the serving code inspects:
whether `Accept-Encoding` contains the token `gzip`
(`httpguts.HeaderValuesContainsToken`, an external parser) and whether
the method is `HEAD`. -/
structure Request where
  acceptsGzip : Bool
  isHead : Bool

/-- The observable outcome of serving: the response headers, the status
(200 unless `WriteHeader` is called — net/http's implicit default), and
the body bytes handed to the client. -/
structure Response where
  status : Nat
  headers : List (Name × Name)
  body : Bytes
  deriving DecidableEq, Repr

/-- One digit of `strconv.FormatUint(_, 36)`: `0-9` then `a-z`. -/
def digit36 (d : Nat) : Char :=
  if d < 10 then Char.ofNat (48 + d) else Char.ofNat (87 + d)

/-- Digit loop of `strconv.FormatUint(n, 36)`; fueled by the digit count. -/
def base36Loop : Nat → Nat → Name
  | 0, _ => []
  | fuel + 1, n =>
    if n < 36 then [digit36 n] else base36Loop fuel (n / 36) ++ [digit36 (n % 36)]

/-- `strconv.FormatUint(n, 36)`. -/
def base36 (n : Nat) : Name := base36Loop (n + 1) n

/-- Strong validator: `"` + base-36 checksum + `"`. -/
def strongTag (hash : Nat) : Name := '"' :: (base36 hash ++ ['"'])

/-- Weak validator: the strong tag behind a `W/` marker. -/
def weakTag (hash : Nat) : Name := 'W' :: '/' :: strongTag hash

/-- Header names used by `setHeaders`, as character lists. -/
def hVary : Name := "Vary".toList

def hContentEncoding : Name := "Content-Encoding".toList

def hContentType : Name := "Content-Type".toList

def hETag : Name := "ETag".toList

/-- `setHeaders` (memfs.go lines 511-531): for objects whose stored length
differs from the declared size add `Vary: Accept-Encoding` and, when the
client accepts gzip, `Content-Encoding: gzip`; always set the MIME type
when known; emit a weak validator when serving the gzip bytes, a strong
one otherwise, and none at all when the checksum is zero.  Returns the
headers and whether the raw (gzip) representation was chosen. -/
def setHeaders (o : Obj) (r : Request) : List (Name × Name) × Bool :=
  let gz : Bool := (o.data.length != o.size) && r.acceptsGzip
  ((if o.data.length != o.size then [(hVary, "Accept-Encoding".toList)] else []) ++
   (if gz then [(hContentEncoding, "gzip".toList)] else []) ++
   (if o.mime ≠ [] then [(hContentType, o.mime)] else []) ++
   (if o.hash ≠ 0 then
      [(hETag, if gz then weakTag o.hash else strongTag o.hash)]
    else []),
   gz)

/-- The reserved not-found document's path, `"/404.html"`. -/
def name404 : Name := "/404.html".toList

/-- Body written by `http.NotFound` — external net/http text, contents not
modelled. -/
def genericNotFoundBody : Bytes := []

/-- `FileSystem.notFound` (memfs.go lines 491-509): serve the registered
`/404.html` (MIME forced, checksum zeroed so no validator is emitted) in
the negotiated representation.  `WriteHeader(404)` and the body copy sit
inside `if r.Method != "HEAD"`, so a HEAD request gets neither — the
response goes out with the implicit 200 status. -/
def notFound (C : Codec) (fs : FS) (r : Request) : Response :=
  match lookupA name404 fs.objs with
  | some o0 =>
    let o := { o0 with mime := "text/html; charset=utf-8".toList, hash := 0 }
    if r.isHead then
      { status := 200, headers := (setHeaders o r).1, body := [] }
    else
      { status := 404, headers := (setHeaders o r).1,
        body := if (setHeaders o r).2 then o.data else servedBody C o }
  | none => { status := 404, headers := [], body := genericNotFoundBody }

/-- `strings.TrimSuffix(name, "/")`. -/
def trimSlash (n : Name) : Name :=
  if n.getLast? = some '/' then n.dropLast else n

/-- `FileSystem.serveFile` (memfs.go lines 476-489): rewrite directory
paths to their index document, then serve the object (unless it is the
reserved not-found document) through `http.FileServer` — raw stored bytes
when `setHeaders` chose the gzip representation, the transparently
decompressed stream otherwise.  The file server's own mechanics
(redirects, ranges, conditional requests) belong to the serving
collaborator; the model records the headers and the bytes of the opened
object. -/
def serveFile (C : Codec) (fs : FS) (r : Request) (name : Name) : Response :=
  let name :=
    if (lookupA name fs.dirs).isSome then trimSlash name ++ "/index.html".toList
    else name
  match lookupA name fs.objs with
  | some o =>
    if name = name404 then notFound C fs r
    else if (setHeaders o r).2 then
      { status := 200, headers := (setHeaders o r).1, body := o.data }
    else
      { status := 200, headers := (setHeaders o r).1, body := servedBody C o }
  | none => notFound C fs r

/-- Well-formed stored object for logical content `content`: raw storage
holds the content itself, compressed storage (detected, as in the code, by
a stored length differing from the declared size) decodes to it. -/
def WFObj (C : Codec) (o : Obj) (content : Bytes) : Prop :=
  o.size = content.length ∧
    (o.data = content ∨
      (o.data.length ≠ content.length ∧ C.decompress o.data = some content))

lemma lookupA_insertA_self {β : Type} (k : Name) (v : β) (l : List (Name × β)) :
    lookupA k (insertA k v l) = some v := by
  induction l with
  | nil => simp [insertA, lookupA]
  | cons hd tl ih =>
    obtain ⟨k', v'⟩ := hd
    by_cases h : k' = k <;> simp [insertA, lookupA, h, ih]

lemma put_objs_lookup (fs : FS) (name : Name) (obj : Obj) (ordered : Bool) :
    lookupA name (put fs name obj ordered).objs =
      some { obj with name := (splitP name).2 } := by
  simp [put, lookupA_insertA_self]

lemma createString_objs_lookup (fs : FS) (name mt : Name) (t h sz : Nat)
    (content : Bytes) :
    lookupA name (createString fs name mt t h sz content).objs =
      some { name := (splitP name).2, data := content, size := sz,
             time := t, mime := mt, hash := h } := by
  simp [createString, put_objs_lookup]

/-- A successful `Create` installs the raw content with its length as the
declared size. -/
lemma create_ok {crc fs name mimetype modtime content fs'}
    (h : create crc fs name mimetype modtime content = (fs', none)) :
    ∃ o, lookupA name fs'.objs = some o ∧
      o.data = content ∧ o.size = content.length := by
  unfold create at h
  split at h
  · exact absurd (congrArg Prod.snd h) (by simp)
  · split at h
    · exact absurd (congrArg Prod.snd h) (by simp)
    · obtain ⟨h1, _⟩ := Prod.mk.injEq .. ▸ h
      refine ⟨{ name := (splitP name).2, data := content, size := content.length,
                time := modtime, mime := mimetype, hash := crc content },
              ?_, rfl, rfl⟩
      rw [← h1, put_objs_lookup]

/-- A successful `CreateCompressed` installs a well-formed object whose
declared size is the original length: either the raw content, or a kept
compressed form that the codec decompresses back to the content. -/
lemma createCompressed_ok {C : Codec} {crc fs name mimetype modtime content level fs'}
    (hinv : C.Inverts)
    (h : createCompressed C crc fs name mimetype modtime content level = (fs', none)) :
    ∃ o, lookupA name fs'.objs = some o ∧ WFObj C o content := by
  have raw : ∀ (h' : create crc fs name mimetype modtime content = (fs', none)),
      ∃ o, lookupA name fs'.objs = some o ∧ WFObj C o content := by
    intro h'
    obtain ⟨o, hl, hd, hs⟩ := create_ok h'
    exact ⟨o, hl, hs, Or.inl hd⟩
  unfold createCompressed at h
  split at h
  · exact raw h
  split at h
  · exact absurd (congrArg Prod.snd h) (by simp)
  split at h
  · exact absurd (congrArg Prod.snd h) (by simp)
  split at h
  · exact raw h
  split at h
  · exact absurd (congrArg Prod.snd h) (by simp)
  rename_i hsmall _ _
  unfold ccGate at h
  split at h
  · exact raw h
  rename_i z hz
  split at h
  · rename_i hgate
    obtain ⟨h1, _⟩ := Prod.mk.injEq .. ▸ h
    refine ⟨{ name := (splitP name).2, data := z, size := content.length,
              time := modtime, mime := mimetype,
              hash := getHash z content.length },
            ?_, rfl, Or.inr ⟨?_, ?_⟩⟩
    · rw [← h1, put_objs_lookup]
    · -- kept only under 5·|z| ≤ 4·|content| with |content| ≥ 1024, so |z| < |content|
      show z.length ≠ content.length
      omega
    · exact hinv _ _ _ hz
  · exact raw h

/-- `Read` at or past the declared size answers `io.EOF` without touching
the handle. -/
lemma fileRead_eof (C : Codec) (f : FileH) (cap : Nat)
    (hcl : f.closed = false) (hsz : f.size ≤ f.pos) :
    fileRead C f cap = ([], f, some .eof) := by
  simp [fileRead, hcl, hsz]

/-- `Read` in streaming state delivers `min cap rem.length` bytes off the
front of the pending stream. -/
lemma fileRead_stream (C : Codec) (f : FileH) (cap : Nat) (rem : Bytes)
    (hcl : f.closed = false) (hrd : f.reader = some rem)
    (hpos : f.pos + rem.length = f.size) (hne : rem ≠ []) :
    fileRead C f cap =
      (rem.take cap,
       { f with pos := f.pos + min cap rem.length, reader := some (rem.drop cap) },
       none) := by
  have hlt : f.pos < f.size := by
    have : 0 < rem.length := List.length_pos.mpr hne
    omega
  simp [fileRead, deliver, hcl, hrd, Nat.not_le.mpr hlt, hne]

/-- Draining the loop from a streaming handle yields exactly the pending
bytes and ends at a clean `io.EOF`. -/
lemma readLoop_stream (C : Codec) (cap : Nat) (hcap : 1 ≤ cap) :
    ∀ fuel (rem : Bytes) (f : FileH), f.closed = false → f.reader = some rem →
      f.pos + rem.length = f.size → rem.length < fuel →
      (readLoop C cap fuel f).1 = rem ∧ (readLoop C cap fuel f).2.2 = true := by
  intro fuel
  induction fuel with
  | zero => intro rem f _ _ _ h; omega
  | succ n ih =>
    intro rem f hcl hrd hpos hlt
    by_cases hne : rem = []
    · subst hne
      have hsz : f.size ≤ f.pos := by simpa using Nat.le_of_eq hpos.symm
      simp [readLoop, fileRead_eof C f cap hcl hsz]
    · rw [readLoop, fileRead_stream C f cap rem hcl hrd hpos hne]
      have hlen : 0 < rem.length := List.length_pos.mpr hne
      have := ih (rem.drop cap)
        { f with pos := f.pos + min cap rem.length, reader := some (rem.drop cap) }
        hcl rfl (by simp; omega) (by simp; omega)
      simp only [this.1, this.2]
      exact ⟨List.take_append_drop cap rem, trivial⟩

/-- A resolved whence reduces `Seek` to the commit step. -/
lemma fileSeek_eq_commit (f : FileH) (offset whence npos : Int)
    (hcl : f.closed = false) (hs : seekTarget f offset whence = some npos) :
    fileSeek f offset whence = seekCommit f npos := by
  unfold fileSeek
  rw [if_neg (by simp [hcl]), hs]

/-- An unrecognized whence reduces `Seek` to the invalid-argument result. -/
lemma fileSeek_eq_invalid (f : FileH) (offset whence : Int)
    (hcl : f.closed = false) (hs : seekTarget f offset whence = none) :
    fileSeek f offset whence = (0, f, some .invalid) := by
  unfold fileSeek
  rw [if_neg (by simp [hcl]), hs]

/-- Seeking from the start to a natural offset always succeeds: position
set, decompression stream dropped. -/
lemma fileSeek_start_nat (f : FileH) (k : Nat) (hcl : f.closed = false) :
    fileSeek f (k : Int) 0 = ((k : Int), { f with pos := k, reader := none }, none) := by
  rw [fileSeek_eq_commit f (k : Int) 0 (k : Int) hcl (by simp [seekTarget])]
  unfold seekCommit
  rw [if_neg (by exact Int.not_lt.mpr (Int.natCast_nonneg k))]
  simp

/-- Delivery from a nonempty stream hands out the `cap`-prefix. -/
lemma deliver_nonempty (rem : Bytes) (f : FileH) (cap : Nat) (hne : rem ≠ []) :
    deliver rem f cap =
      (rem.take cap,
       { f with pos := f.pos + min cap rem.length, reader := some (rem.drop cap) },
       none) := by
  simp [deliver, hne]

/-- First `Read` on a raw handle wraps `data[pos:]`. -/
lemma fileRead_build_raw (C : Codec) (f : FileH) (cap : Nat)
    (hcl : f.closed = false) (hrd : f.reader = none)
    (hlen : f.data.length = f.size) (hlt : f.pos < f.size) :
    fileRead C f cap = deliver (f.data.drop f.pos) f cap := by
  simp [fileRead, hcl, hrd, hlen, Nat.not_le.mpr hlt]

/-- First `Read` on a compressed handle decompresses and skips `pos` bytes. -/
lemma fileRead_build_z (C : Codec) (f : FileH) (cap : Nat) (dec : Bytes)
    (hcl : f.closed = false) (hrd : f.reader = none)
    (hlen : f.data.length ≠ f.size) (hlt : f.pos < f.size)
    (hdec : C.decompress f.data = some dec) (hk : f.pos ≤ dec.length) :
    fileRead C f cap = deliver (dec.drop f.pos) f cap := by
  simp [fileRead, hcl, hrd, hlen, Nat.not_le.mpr hlt, hdec, Nat.not_lt.mpr hk]

/-- Draining the loop from a handle whose stream is not yet built, at
position `k` inside a well-formed object, yields the content from `k` on. -/
lemma readLoop_at (C : Codec) (o : Obj) (content : Bytes) (k cap fuel : Nat)
    (hwf : WFObj C o content) (hk : k ≤ content.length) (hcap : 1 ≤ cap)
    (hfuel : content.length - k < fuel) :
    (readLoop C cap fuel
        { size := o.size, data := o.data, pos := k, closed := false, reader := none }).1 =
        content.drop k ∧
    (readLoop C cap fuel
        { size := o.size, data := o.data, pos := k, closed := false, reader := none }).2.2 =
        true := by
  obtain ⟨hsz, hstore⟩ := hwf
  set f : FileH :=
    { size := o.size, data := o.data, pos := k, closed := false, reader := none } with hf
  obtain ⟨m, rfl⟩ : ∃ m, fuel = m + 1 := ⟨fuel - 1, by omega⟩
  by_cases hend : k = content.length
  · have hsize : f.size ≤ f.pos := by simp [hf, hsz, hend]
    have hdrop : content.drop k = [] := by simp [hend]
    simp [readLoop, fileRead_eof C f cap rfl hsize, hdrop]
  · have hklt : k < content.length := by omega
    have hne : content.drop k ≠ [] := by
      intro hnil
      have := congrArg List.length hnil
      simp at this
      omega
    have hlt : f.pos < f.size := by simp [hf, hsz]; omega
    have hread : fileRead C f cap = deliver (content.drop k) f cap := by
      rcases hstore with hraw | ⟨hzlen, hdec⟩
      · have := fileRead_build_raw C f cap rfl rfl (by simp [hf, hraw, hsz]) hlt
        simpa [hf, hraw] using this
      · have := fileRead_build_z C f cap content rfl rfl
          (by simp [hf, hsz]; exact hzlen) hlt (by simp [hf]; exact hdec)
          (by simp [hf]; omega)
        simpa [hf] using this
    rw [readLoop, hread, deliver_nonempty _ _ _ hne]
    have hstep := readLoop_stream C cap hcap m ((content.drop k).drop cap)
      { f with pos := f.pos + min cap (content.drop k).length,
               reader := some ((content.drop k).drop cap) }
      rfl rfl (by simp [hf, hsz]; omega) (by simp; omega)
    simp only [hstep.1, hstep.2]
    exact ⟨List.take_append_drop cap (content.drop k), trivial⟩

/-- A successful `Create` or `CreateCompressed` leaves a well-formed object
at `name` (assuming the gzip collaborator inverts its own output). -/
lemma createEither_ok {C : Codec} {crc fs name mimetype modtime content level fs'}
    (hinv : C.Inverts)
    (hmk : create crc fs name mimetype modtime content = (fs', none) ∨
      createCompressed C crc fs name mimetype modtime content level = (fs', none)) :
    ∃ o, lookupA name fs'.objs = some o ∧ WFObj C o content := by
  rcases hmk with h | h
  · obtain ⟨o, hl, hd, hs⟩ := create_ok h
    exact ⟨o, hl, hs, Or.inl hd⟩
  · exact createCompressed_ok hinv h

/-- Fixed checksum function for concrete instances. -/
def crc0 : Bytes → Nat := fun _ => 1

/-- Concrete invertible codec: "compression" prepends one byte, so its
output length always differs from the input length. -/
def codecShift : Codec :=
  { compress := fun _ c => some (0 :: c), decompress := fun z => some (z.drop 1) }

lemma codecShift_inverts : codecShift.Inverts := by
  intro level c z h
  simp [codecShift] at h
  simp [codecShift, ← h]

/-- C1: reading a freshly opened handle on a file made by `Create` or
`CreateCompressed` from position 0 to end-of-data returns exactly the
creation-time content, for raw and compressed storage alike. -/
theorem c1_create_read_roundtrip
    (C : Codec) (crc : Bytes → Nat) (fs fs' : FS) (name mimetype : Name)
    (modtime : Nat) (content : Bytes) (level : Int) (cap : Nat) (f : FileH)
    (hinv : C.Inverts)
    (hmk : create crc fs name mimetype modtime content = (fs', none) ∨
      createCompressed C crc fs name mimetype modtime content level = (fs', none))
    (hopen : openFile fs' name = some f) (hcap : 1 ≤ cap) :
    (readLoop C cap (content.length + 1) f).1 = content ∧
    (readLoop C cap (content.length + 1) f).2.2 = true := by
  obtain ⟨o, hl, hwf⟩ := createEither_ok hinv hmk
  have hfeq : f = freshFile o := by
    simp [openFile, hl] at hopen
    exact hopen.symm
  subst hfeq
  have := readLoop_at C o content 0 cap (content.length + 1) hwf (by omega) hcap (by omega)
  simpa [freshFile] using this

/-- C1 witness: a three-byte file stored raw reads back as itself. -/
theorem c1_witness :
    (readLoop codecShift 2 4 (freshFile
      { name := "a.txt".toList, data := [1, 2, 3], size := 3,
        time := 0, mime := [], hash := 1 })).1 = [1, 2, 3] ∧
    (readLoop codecShift 2 4 (freshFile
      { name := "a.txt".toList, data := [1, 2, 3], size := 3,
        time := 0, mime := [], hash := 1 })).2.2 = true :=
  c1_create_read_roundtrip codecShift crc0 initFS
    (create crc0 initFS "a.txt".toList [] 0 [1, 2, 3]).1 "a.txt".toList [] 0
    [1, 2, 3] 7 2 _ codecShift_inverts (Or.inl (by decide)) (by decide) (by decide)

/-- C4: on a handle opened on a created file, seeking (from start) to any
`k ≤ declared-size` succeeds, and reading to end-of-data afterwards gives
what reading from 0 gives with the first `k` bytes discarded. -/
theorem c4_seek_read_consistency
    (C : Codec) (crc : Bytes → Nat) (fs fs' : FS) (name mimetype : Name)
    (modtime : Nat) (content : Bytes) (level : Int) (cap k : Nat) (f : FileH)
    (hinv : C.Inverts)
    (hmk : create crc fs name mimetype modtime content = (fs', none) ∨
      createCompressed C crc fs name mimetype modtime content level = (fs', none))
    (hopen : openFile fs' name = some f) (hcap : 1 ≤ cap)
    (hk : k ≤ content.length) :
    fileSeek f (k : Int) 0 = ((k : Int), { f with pos := k, reader := none }, none) ∧
    (readLoop C cap (content.length + 1) { f with pos := k, reader := none }).1 =
      ((readLoop C cap (content.length + 1) f).1).drop k := by
  obtain ⟨o, hl, hwf⟩ := createEither_ok hinv hmk
  have hfeq : f = freshFile o := by
    simp [openFile, hl] at hopen
    exact hopen.symm
  subst hfeq
  constructor
  · exact fileSeek_start_nat (freshFile o) k rfl
  · have hat := readLoop_at C o content k cap (content.length + 1) hwf hk hcap (by omega)
    have h0 := readLoop_at C o content 0 cap (content.length + 1) hwf (by omega) hcap (by omega)
    have e1 : ({ freshFile o with pos := k, reader := none } : FileH) =
        { size := o.size, data := o.data, pos := k, closed := false, reader := none } := rfl
    have e0 : freshFile o =
        { size := o.size, data := o.data, pos := 0, closed := false, reader := none } := rfl
    rw [e1, e0, hat.1, h0.1]
    simp

/-- C4 witness: seeking to offset 1 in a three-byte raw file then reading
yields the tail of a full read. -/
theorem c4_witness :
    fileSeek (freshFile
      { name := "a.txt".toList, data := [1, 2, 3], size := 3,
        time := 0, mime := [], hash := 1 }) (1 : Int) 0 =
      ((1 : Int), { freshFile
        { name := "a.txt".toList, data := [1, 2, 3], size := 3,
          time := 0, mime := [], hash := 1 } with pos := 1, reader := none }, none) ∧
    (readLoop codecShift 2 4 ({ freshFile
      { name := "a.txt".toList, data := [1, 2, 3], size := 3,
        time := 0, mime := [], hash := 1 } with pos := 1, reader := none })).1 =
      ((readLoop codecShift 2 4 (freshFile
        { name := "a.txt".toList, data := [1, 2, 3], size := 3,
          time := 0, mime := [], hash := 1 })).1).drop 1 :=
  c4_seek_read_consistency codecShift crc0 initFS
    (create crc0 initFS "a.txt".toList [] 0 [1, 2, 3]).1 "a.txt".toList [] 0
    [1, 2, 3] 7 2 1 _ codecShift_inverts (Or.inl (by decide)) (by decide)
    (by decide) (by decide)

/-- C9: on an open handle, a failing `Seek` (unknown whence or negative
target) reports invalid-argument, returns offset 0, and leaves the
position and decompression state untouched. -/
theorem c9_seek_error_no_mutation
    (f : FileH) (offset whence : Int) (r : Int) (f' : FileH) (e : Err)
    (hcl : f.closed = false) (h : fileSeek f offset whence = (r, f', some e)) :
    r = 0 ∧ f' = f ∧ e = .invalid := by
  cases hs : seekTarget f offset whence with
  | none =>
    rw [fileSeek_eq_invalid f offset whence hcl hs] at h
    simp only [Prod.mk.injEq, Option.some.injEq] at h
    exact ⟨h.1.symm, h.2.1.symm, h.2.2.symm⟩
  | some npos =>
    rw [fileSeek_eq_commit f offset whence npos hcl hs] at h
    unfold seekCommit at h
    by_cases hneg : npos < 0
    · rw [if_pos hneg] at h
      simp only [Prod.mk.injEq, Option.some.injEq] at h
      exact ⟨h.1.symm, h.2.1.symm, h.2.2.symm⟩
    · rw [if_neg hneg] at h
      exact absurd (congrArg (fun p => p.2.2) h) (by simp)

/-- C9 witness: seeking to -1 from the start fails without mutation. -/
theorem c9_witness : (0 : Int) = 0 ∧
    (freshFile { name := [], data := [1], size := 1, time := 0, mime := [], hash := 1 }) =
      (freshFile { name := [], data := [1], size := 1, time := 0, mime := [], hash := 1 }) ∧
    Err.invalid = Err.invalid :=
  c9_seek_error_no_mutation
    (freshFile { name := [], data := [1], size := 1, time := 0, mime := [], hash := 1 })
    (-1) 0 0 _ _ (by decide) (by decide)

/-- C10: seeking at or past the declared size succeeds (no upper bound),
and the next `Read` reports end-of-data rather than an error, whatever the
storage mode. -/
theorem c10_seek_past_end
    (C : Codec) (f : FileH) (k cap : Nat)
    (hcl : f.closed = false) (hk : f.size ≤ k) :
    fileSeek f (k : Int) 0 = ((k : Int), { f with pos := k, reader := none }, none) ∧
    fileRead C { f with pos := k, reader := none } cap =
      ([], { f with pos := k, reader := none }, some .eof) := by
  constructor
  · exact fileSeek_start_nat f k hcl
  · exact fileRead_eof C _ cap (by simp [hcl]) (by simp [hk])

/-- Concrete codec that always fails to compress. -/
def codecFail : Codec :=
  { compress := fun _ _ => none, decompress := fun _ => none }

/-- Concrete codec whose decompression doubles the stored bytes. -/
def codecDouble : Codec :=
  { compress := fun _ _ => none, decompress := fun z => some (z ++ z) }

/-- Concrete codec that "compresses" to the three-byte prefix. -/
def codecSqueeze : Codec :=
  { compress := fun _ c => some (c.take 3), decompress := fun z => some z }

/-- Concrete large content: 1024 copies of byte 7. -/
def bigContent : Bytes := List.replicate 1024 7

/-- A resolved compression step reduces the gate to the ratio test. -/
lemma ccGate_some {C : Codec} {crc fs name mimetype modtime content level z}
    (hz : C.compress level content = some z) :
    ccGate C crc fs name mimetype modtime content level =
      if 5 * z.length ≤ 4 * content.length then
        (put fs name
          { name := [], data := z, size := content.length,
            time := modtime, mime := mimetype,
            hash := getHash z content.length } false, none)
      else create crc fs name mimetype modtime content := by
  unfold ccGate
  rw [hz]

/-- A failed compression step reduces the gate to the raw fallback. -/
lemma ccGate_none {C : Codec} {crc fs name mimetype modtime content level}
    (hz : C.compress level content = none) :
    ccGate C crc fs name mimetype modtime content level =
      create crc fs name mimetype modtime content := by
  unfold ccGate
  rw [hz]

/-- Under a non-trivial level, a valid non-directory path, large content
and a constructible compressor, `CreateCompressed` reaches the gate. -/
lemma createCompressed_run {C : Codec} {crc fs name mimetype modtime content level}
    (hlevel : level ≠ 0) (hv : validPath name)
    (hd : lookupA name fs.dirs = none) (hbig : ¬ content.length < 1024)
    (hvl : validLevel level) :
    createCompressed C crc fs name mimetype modtime content level =
      ccGate C crc fs name mimetype modtime content level := by
  unfold createCompressed
  rw [if_neg hlevel, if_neg (by simp [hv]), if_neg (by simp [hd]), if_neg hbig,
    if_neg (by simp [hvl])]

/-- Small content makes `CreateCompressed` behave exactly as raw `Create`. -/
lemma createCompressed_small {C : Codec} {crc fs name mimetype modtime content level}
    (hlevel : level ≠ 0) (hsmall : content.length < 1024) :
    createCompressed C crc fs name mimetype modtime content level =
      create crc fs name mimetype modtime content := by
  unfold createCompressed
  rw [if_neg hlevel]
  by_cases hv : validPath name
  · rw [if_neg (by simp [hv])]
    by_cases hd : (lookupA name fs.dirs).isSome
    · rw [if_pos hd]
      unfold create
      rw [if_neg (by simp [hv]), if_pos hd]
    · rw [if_neg hd, if_pos hsmall]
  · rw [if_pos (by simp [hv])]
    unfold create
    rw [if_pos (by simp [hv])]

/-- C3: under a non-trivial compression level, sub-1KB content skips
compression entirely; otherwise the compressed result is kept exactly when
it is at most 80% of the raw length and the raw bytes are stored exactly
otherwise; every successfully stored object declares the original
uncompressed length as its size. -/
theorem c3_compression_gate
    (C : Codec) (crc : Bytes → Nat) (fs : FS) (name mimetype : Name)
    (modtime : Nat) (content : Bytes) (level : Int) (hlevel : level ≠ 0) :
    (content.length < 1024 →
      createCompressed C crc fs name mimetype modtime content level =
        create crc fs name mimetype modtime content) ∧
    (∀ z, validPath name → lookupA name fs.dirs = none → 1024 ≤ content.length →
      validLevel level → C.compress level content = some z →
      (5 * z.length ≤ 4 * content.length →
        createCompressed C crc fs name mimetype modtime content level =
          (put fs name
            { name := [], data := z, size := content.length,
              time := modtime, mime := mimetype,
              hash := getHash z content.length } false, none)) ∧
      (¬ 5 * z.length ≤ 4 * content.length →
        createCompressed C crc fs name mimetype modtime content level =
          create crc fs name mimetype modtime content)) ∧
    (∀ fs', createCompressed C crc fs name mimetype modtime content level = (fs', none) →
      ∃ o, lookupA name fs'.objs = some o ∧ o.size = content.length ∧
        (o.data = content ∨ C.compress level content = some o.data)) := by
  refine ⟨fun hsmall => createCompressed_small hlevel hsmall, ?_, ?_⟩
  · intro z hv hd hbig hvl hz
    rw [createCompressed_run hlevel hv hd (by omega) hvl, ccGate_some hz]
    constructor
    · intro hgate
      rw [if_pos hgate]
    · intro hgate
      rw [if_neg hgate]
  · intro fs' h
    have raw : ∀ (h' : create crc fs name mimetype modtime content = (fs', none)),
        ∃ o, lookupA name fs'.objs = some o ∧ o.size = content.length ∧
          (o.data = content ∨ C.compress level content = some o.data) := by
      intro h'
      obtain ⟨o, hl, hdata, hsz⟩ := create_ok h'
      exact ⟨o, hl, hsz, Or.inl hdata⟩
    unfold createCompressed at h
    split at h
    · exact raw h
    split at h
    · exact absurd (congrArg Prod.snd h) (by simp)
    split at h
    · exact absurd (congrArg Prod.snd h) (by simp)
    split at h
    · exact raw h
    split at h
    · exact absurd (congrArg Prod.snd h) (by simp)
    unfold ccGate at h
    split at h
    · exact raw h
    rename_i z hz
    split at h
    · obtain ⟨h1, _⟩ := Prod.mk.injEq .. ▸ h
      refine ⟨{ name := (splitP name).2, data := z, size := content.length,
                time := modtime, mime := mimetype,
                hash := getHash z content.length }, ?_, rfl, Or.inr hz⟩
      rw [← h1, put_objs_lookup]
    · exact raw h

/-- C3 witness: a 3-byte file skips compression; 1024 bytes squeezed to a
3-byte form pass the gate and are stored with declared size 1024. -/
theorem c3_witness :
    (createCompressed codecSqueeze crc0 initFS "b.bin".toList [] 0 [1, 2, 3] 9 =
      create crc0 initFS "b.bin".toList [] 0 [1, 2, 3]) ∧
    (createCompressed codecSqueeze crc0 initFS "b.bin".toList [] 0 bigContent 9 =
      (put initFS "b.bin".toList
        { name := [], data := bigContent.take 3, size := bigContent.length,
          time := 0, mime := [],
          hash := getHash (bigContent.take 3) bigContent.length } false, none)) := by
  constructor
  · exact (c3_compression_gate codecSqueeze crc0 initFS "b.bin".toList [] 0
      [1, 2, 3] 9 (by decide)).1 (by decide)
  · exact ((c3_compression_gate codecSqueeze crc0 initFS "b.bin".toList [] 0
      bigContent 9 (by decide)).2.1 (bigContent.take 3) (by decide) (by decide)
      (by decide) (by decide) rfl).1 (by decide)

/-- C7 counterexample: with a compressor whose compressing step always
fails, `CreateCompressed` SUCCEEDS (no error) and stores the raw bytes —
the failure did not fail the whole create operation. -/
theorem c7_counterexample :
    (createCompressed codecFail crc0 initFS "b.bin".toList [] 0 bigContent 9).2 =
      none ∧
    (lookupA "b.bin".toList
        (createCompressed codecFail crc0 initFS "b.bin".toList [] 0 bigContent 9).1.objs).map
        Obj.data = some bigContent := by
  constructor
  · rfl
  · rfl

/-- C7 (amended): a failure to construct the compressor (invalid level)
fails the whole create with that error; but a failure of the compressing
or finalizing step does not — the code rewinds the content and silently
stores the raw bytes via `Create`. -/
theorem c7_compression_failure
    (C : Codec) (crc : Bytes → Nat) (fs : FS) (name mimetype : Name)
    (modtime : Nat) (content : Bytes) (level : Int)
    (hlevel : level ≠ 0) (hv : validPath name)
    (hd : lookupA name fs.dirs = none) (hbig : 1024 ≤ content.length) :
    (¬ validLevel level →
      createCompressed C crc fs name mimetype modtime content level =
        (fs, some .gzip)) ∧
    (validLevel level → C.compress level content = none →
      createCompressed C crc fs name mimetype modtime content level =
        create crc fs name mimetype modtime content) := by
  constructor
  · intro hvl
    unfold createCompressed
    rw [if_neg hlevel, if_neg (by simp [hv]), if_neg (by simp [hd]),
      if_neg (by omega), if_pos hvl]
  · intro hvl hz
    rw [createCompressed_run hlevel hv hd (by omega) hvl, ccGate_none hz]

/-- C7 witness: level 42 fails construction and the whole create; a failing
compress step at level 9 degrades to raw `Create`. -/
theorem c7_witness :
    createCompressed codecFail crc0 initFS "b.bin".toList [] 0 bigContent 42 =
      (initFS, some .gzip) ∧
    createCompressed codecFail crc0 initFS "b.bin".toList [] 0 bigContent 9 =
      create crc0 initFS "b.bin".toList [] 0 bigContent := by
  constructor
  · exact (c7_compression_failure codecFail crc0 initFS "b.bin".toList [] 0
      bigContent 42 (by decide) (by decide) (by decide) (by decide)).1 (by decide)
  · exact (c7_compression_failure codecFail crc0 initFS "b.bin".toList [] 0
      bigContent 9 (by decide) (by decide) (by decide) (by decide)).2 (by decide) rfl

/-- Store holding one top-level file, created through the public API. -/
def fsA : FS := (create crc0 initFS "a.txt".toList [] 0 [1]).1

/-- C8 counterexample: after a top-level create, the empty path is
registered as a directory (an artifact of the `put` walk), yet `Create`
at it fails with invalid-argument, not already-exists. -/
theorem c8_counterexample :
    (lookupA [] fsA.dirs).isSome = true ∧
    create crc0 fsA [] [] 0 [2] = (fsA, some .invalid) ∧
    create crc0 fsA [] [] 0 [2] ≠ (fsA, some .exist) := by
  refine ⟨by decide, by decide, by decide⟩

/-- C8 (amended): `Create` and `CreateCompressed` at a path registered as
a directory fail before any mutation — with already-exists when the path
is `fs.ValidPath`-valid, and with invalid-argument for the empty path —
returning the store unchanged. -/
theorem c8_create_on_directory
    (C : Codec) (crc : Bytes → Nat) (fs : FS) (name mimetype : Name)
    (modtime : Nat) (content : Bytes) (level : Int)
    (hd : (lookupA name fs.dirs).isSome) :
    create crc fs name mimetype modtime content =
      (fs, some (if validPath name then Err.exist else Err.invalid)) ∧
    createCompressed C crc fs name mimetype modtime content level =
      (fs, some (if validPath name then Err.exist else Err.invalid)) := by
  have hcr : create crc fs name mimetype modtime content =
      (fs, some (if validPath name then Err.exist else Err.invalid)) := by
    unfold create
    by_cases hv : validPath name
    · rw [if_neg (by simp [hv]), if_pos hd, if_pos hv]
    · rw [if_pos (by simp [hv]), if_neg hv]
  refine ⟨hcr, ?_⟩
  unfold createCompressed
  by_cases hl : level = 0
  · rw [if_pos hl]
    exact hcr
  · rw [if_neg hl]
    by_cases hv : validPath name
    · rw [if_neg (by simp [hv]), if_pos hd, if_pos hv]
    · rw [if_pos (by simp [hv]), if_neg hv]

/-- C8 witness: creating at `"."` (always a registered directory) fails
with already-exists and leaves the store unchanged. -/
theorem c8_witness :
    create crc0 initFS ".".toList [] 0 [1] =
      (initFS, some (if validPath ".".toList then Err.exist else Err.invalid)) ∧
    createCompressed codecShift crc0 initFS ".".toList [] 0 [1] 9 =
      (initFS, some (if validPath ".".toList then Err.exist else Err.invalid)) :=
  c8_create_on_directory codecShift crc0 initFS ".".toList [] 0 [1] 9 (by decide)

/-- Store holding one nested file `a/b/c.txt`, created through the public
API. -/
def fsC2 : FS := (create crc0 initFS "a/b/c.txt".toList [] 0 [104, 105]).1

/-- C2 (code bug): inserting `a/b/c.txt` through `Create` links the
intermediate directories, but the root `"."` — present since `Create()`
and the directory `fs.FS` readers resolve as the root — still lists
nothing; the top-level link lands under the bogus key `""` instead.  The
revised `put` of `src/unnamed/part_001` links the root at the same
input. -/
theorem c2_root_never_linked :
    (create crc0 initFS "a/b/c.txt".toList [] 0 [104, 105]).2 = none ∧
    lookupA "a/b".toList fsC2.dirs = some ["a/b/c.txt".toList] ∧
    lookupA "a".toList fsC2.dirs = some ["a/b".toList] ∧
    lookupA ".".toList fsC2.dirs = some [] ∧
    lookupA [] fsC2.dirs = some ["a".toList] ∧
    lookupA ".".toList
      (putV2 initFS "a/b/c.txt".toList
        { name := [], data := [104, 105], size := 2, time := 0, mime := [], hash := 1 }
        false).dirs = some ["a".toList] := by
  refine ⟨by decide, by decide, by decide, by decide, by decide, by decide⟩

/-- Reading a fresh handle on a well-formed object to end-of-data yields
its logical content. -/
lemma servedBody_wf (C : Codec) (o : Obj) (content : Bytes)
    (hwf : WFObj C o content) : servedBody C o = content := by
  have hsz := hwf.1
  have := readLoop_at C o content 0 (o.size + 1) (o.size + 2) hwf
    (by omega) (by omega) (by omega)
  unfold servedBody
  have hfe : freshFile o =
      { size := o.size, data := o.data, pos := 0, closed := false, reader := none } := rfl
  rw [hfe, this.1]
  simp

lemma lookupA_cons_ne {β : Type} (k k' : Name) (v : β) (l : List (Name × β))
    (h : k' ≠ k) : lookupA k ((k', v) :: l) = lookupA k l := by
  simp [lookupA, h]

lemma lookupA_cons_eq {β : Type} (k : Name) (v : β) (l : List (Name × β)) :
    lookupA k ((k, v) :: l) = some v := by
  simp [lookupA]

/-- Resolving `serveFile` on a plain object path (no directory rewrite,
not the reserved not-found document). -/
lemma serveFile_obj (C : Codec) (fs : FS) (r : Request) (name : Name) (o : Obj)
    (hd : lookupA name fs.dirs = none) (ho : lookupA name fs.objs = some o)
    (h404 : name ≠ name404) :
    serveFile C fs r name =
      if (setHeaders o r).2 then
        { status := 200, headers := (setHeaders o r).1, body := o.data }
      else
        { status := 200, headers := (setHeaders o r).1, body := servedBody C o } := by
  unfold serveFile
  simp [hd, ho, h404]

/-- A compressed stored object with gzip-accepting request. -/
lemma setHeaders_compressed_accept (o : Obj) (hb : Bool)
    (hz : o.data.length ≠ o.size) (hh : o.hash ≠ 0) :
    setHeaders o { acceptsGzip := true, isHead := hb } =
      ([(hVary, "Accept-Encoding".toList)] ++
       [(hContentEncoding, "gzip".toList)] ++
       (if o.mime ≠ [] then [(hContentType, o.mime)] else []) ++
       [(hETag, weakTag o.hash)], true) := by
  have hbne : (o.data.length != o.size) = true := by simpa using hz
  simp [setHeaders, hbne, hh]

/-- A compressed stored object with a non-accepting request. -/
lemma setHeaders_compressed_noaccept (o : Obj) (hb : Bool)
    (hz : o.data.length ≠ o.size) (hh : o.hash ≠ 0) :
    setHeaders o { acceptsGzip := false, isHead := hb } =
      ([(hVary, "Accept-Encoding".toList)] ++
       (if o.mime ≠ [] then [(hContentType, o.mime)] else []) ++
       [(hETag, strongTag o.hash)], false) := by
  have hbne : (o.data.length != o.size) = true := by simpa using hz
  simp [setHeaders, hbne, hh]

lemma lookupA_mime_skip (k : Name) (o : Obj) (tail : List (Name × Name))
    (hk : hContentType ≠ k) :
    lookupA k ((if o.mime ≠ [] then [(hContentType, o.mime)] else []) ++ tail) =
      lookupA k tail := by
  by_cases hm : o.mime = [] <;> simp [hm, lookupA, hk]

/-- C5 (amended): serving a compressed-stored object to a gzip-accepting
client yields the stored bytes verbatim with `Content-Encoding: gzip`,
`Vary: Accept-Encoding` and — when the object's checksum is nonzero — a
weak validator; a non-accepting client gets the exact decompressed bytes,
no `Content-Encoding`, and a strong validator; the two validators are
distinct. -/
theorem c5_negotiation
    (C : Codec) (fs : FS) (name : Name) (o : Obj) (content : Bytes) (hb : Bool)
    (hd : lookupA name fs.dirs = none) (ho : lookupA name fs.objs = some o)
    (h404 : name ≠ name404) (hz : o.data.length ≠ o.size) (hh : o.hash ≠ 0)
    (hdec : C.decompress o.data = some content) (hlen : content.length = o.size) :
    (serveFile C fs { acceptsGzip := true, isHead := hb } name).body = o.data ∧
    lookupA hContentEncoding
      (serveFile C fs { acceptsGzip := true, isHead := hb } name).headers =
        some "gzip".toList ∧
    lookupA hVary (serveFile C fs { acceptsGzip := true, isHead := hb } name).headers =
        some "Accept-Encoding".toList ∧
    lookupA hETag (serveFile C fs { acceptsGzip := true, isHead := hb } name).headers =
        some (weakTag o.hash) ∧
    (serveFile C fs { acceptsGzip := false, isHead := hb } name).body = content ∧
    lookupA hContentEncoding
      (serveFile C fs { acceptsGzip := false, isHead := hb } name).headers = none ∧
    lookupA hETag (serveFile C fs { acceptsGzip := false, isHead := hb } name).headers =
        some (strongTag o.hash) ∧
    weakTag o.hash ≠ strongTag o.hash := by
  have hwf : WFObj C o content := by
    refine ⟨hlen.symm, Or.inr ⟨?_, hdec⟩⟩
    rw [hlen]
    exact hz
  have hbody := servedBody_wf C o content hwf
  rw [serveFile_obj C fs _ name o hd ho h404, serveFile_obj C fs _ name o hd ho h404,
    setHeaders_compressed_accept o hb hz hh, setHeaders_compressed_noaccept o hb hz hh]
  simp only [Bool.false_eq_true, eq_self_iff_true, if_true, if_false,
    List.append_assoc, List.singleton_append, List.cons_append, List.nil_append]
  refine ⟨trivial, ?_, ?_, ?_, hbody, ?_, ?_, ?_⟩
  · rw [lookupA_cons_ne _ _ _ _ (by decide), lookupA_cons_eq]
  · rw [lookupA_cons_eq]
  · rw [lookupA_cons_ne _ _ _ _ (by decide), lookupA_cons_ne _ _ _ _ (by decide),
      lookupA_mime_skip _ _ _ (by decide), lookupA_cons_eq]
  · rw [lookupA_cons_ne _ _ _ _ (by decide), lookupA_mime_skip _ _ _ (by decide),
      lookupA_cons_ne _ _ _ _ (by decide)]
    rfl
  · rw [lookupA_cons_ne _ _ _ _ (by decide), lookupA_mime_skip _ _ _ (by decide),
      lookupA_cons_eq]
  · intro hcontra
    have := congrArg (fun l => l.headI) hcontra
    simp [weakTag, strongTag] at this

/-- Store holding a compressed-stored object (`len(data) ≠ size`) with a
zero checksum, as the trusted `CreateString` entry point permits. -/
def fsZ0 : FS := createString initFS "/z.bin".toList [] 0 0 2000 [1, 2, 3]

/-- The object `fsZ0` stores at `/z.bin`. -/
def zObj : Obj :=
  { name := "z.bin".toList, data := [1, 2, 3], size := 2000,
    time := 0, mime := [], hash := 0 }

/-- C5 counterexample: a compressed-stored object with checksum 0 is
served to a gzip-accepting client with no validator tag at all — the
claimed weak validator is absent (`setHeaders` emits `ETag` only for a
nonzero hash). -/
theorem c5_counterexample :
    lookupA "/z.bin".toList fsZ0.objs = some zObj ∧
    zObj.data.length ≠ zObj.size ∧
    lookupA hETag
      (serveFile codecShift fsZ0 { acceptsGzip := true, isHead := false }
        "/z.bin".toList).headers = none := by
  refine ⟨by decide, by decide, by decide⟩

/-- Store holding a compressed-stored object with a nonzero checksum. -/
def fsZ5 : FS := createString initFS "/z.bin".toList [] 0 5 4 [9, 9]

/-- C5 witness: `/z.bin` stores `[9,9]` declared as 4 bytes; a codec whose
decompression doubles the bytes exhibits the negotiation symmetry. -/
theorem c5_witness :
    (serveFile codecDouble fsZ5 { acceptsGzip := true, isHead := false }
      "/z.bin".toList).body = [9, 9] ∧
    lookupA hContentEncoding
      (serveFile codecDouble fsZ5 { acceptsGzip := true, isHead := false }
        "/z.bin".toList).headers = some "gzip".toList ∧
    lookupA hVary
      (serveFile codecDouble fsZ5 { acceptsGzip := true, isHead := false }
        "/z.bin".toList).headers = some "Accept-Encoding".toList ∧
    lookupA hETag
      (serveFile codecDouble fsZ5 { acceptsGzip := true, isHead := false }
        "/z.bin".toList).headers = some (weakTag 5) ∧
    (serveFile codecDouble fsZ5 { acceptsGzip := false, isHead := false }
      "/z.bin".toList).body = [9, 9, 9, 9] ∧
    lookupA hContentEncoding
      (serveFile codecDouble fsZ5 { acceptsGzip := false, isHead := false }
        "/z.bin".toList).headers = none ∧
    lookupA hETag
      (serveFile codecDouble fsZ5 { acceptsGzip := false, isHead := false }
        "/z.bin".toList).headers = some (strongTag 5) ∧
    weakTag 5 ≠ strongTag 5 :=
  c5_negotiation codecDouble fsZ5 "/z.bin".toList
    { name := "z.bin".toList, data := [9, 9], size := 4, time := 0, mime := [], hash := 5 }
    [9, 9, 9, 9] false (by decide) (by decide) (by decide) (by decide) (by decide)
    (by decide) (by decide)

/-- Store whose only object is the reserved not-found document, holding
the four raw bytes `[7,7,7,7]`. -/
def fs404 : FS := createString initFS name404 [] 0 9 4 [7, 7, 7, 7]

/-- C6 (code bug): with `/404.html` registered, a missing path yields the
not-found status and the document body on an ordinary request, but a HEAD
request gets neither the body nor the not-found status — the response is
left at the implicit success status because `WriteHeader` sits inside
`if r.Method != "HEAD"`. -/
theorem c6_head_not_found_status :
    (serveFile codecShift fs404 { acceptsGzip := false, isHead := false }
      "/missing".toList).status = 404 ∧
    (serveFile codecShift fs404 { acceptsGzip := false, isHead := false }
      "/missing".toList).body = [7, 7, 7, 7] ∧
    (serveFile codecShift fs404 { acceptsGzip := false, isHead := true }
      "/missing".toList).status = 200 ∧
    (serveFile codecShift fs404 { acceptsGzip := false, isHead := true }
      "/missing".toList).body = [] := by
  refine ⟨by decide, by decide, by decide, by decide⟩

/-- C10 witness: seeking to 5 in a 3-byte compressed file, then reading,
yields end-of-data. -/
theorem c10_witness :
    fileSeek (freshFile
      { name := [], data := [0, 1, 2, 3], size := 3, time := 0, mime := [], hash := 1 })
      (5 : Int) 0 =
      ((5 : Int), { freshFile
        { name := [], data := [0, 1, 2, 3], size := 3, time := 0, mime := [], hash := 1 }
        with pos := 5, reader := none }, none) ∧
    fileRead codecShift ({ freshFile
      { name := [], data := [0, 1, 2, 3], size := 3, time := 0, mime := [], hash := 1 }
      with pos := 5, reader := none }) 4 =
      ([], { freshFile
        { name := [], data := [0, 1, 2, 3], size := 3, time := 0, mime := [], hash := 1 }
        with pos := 5, reader := none }, some .eof) :=
  c10_seek_past_end codecShift
    (freshFile { name := [], data := [0, 1, 2, 3], size := 3, time := 0, mime := [], hash := 1 })
    5 4 (by decide) (by decide)

end Memfs
